import Mathlib

/-!
Verification development for the script keepa_gb_sellers_in_de.py.

The script reads seller identifiers from a text file, queries the Keepa API in
batches of 100, infers a country for every returned seller record via the
heuristic function extract_country_from_seller, keeps the sellers whose
inferred country is GB or UK, and writes one CSV row per kept seller.

The shallow embedding below mirrors the script:
  - Python strings are Lean Strings; str.strip, str.upper, str.split(",") and
    the two regular expressions of the script are embedded as executable
    functions on character lists.  Whitespace is modelled as the six ASCII
    whitespace characters and case conversion as the ASCII letter range,
    matching the behaviour of the script on ASCII data.
  - a loosely typed Python value (the shapes the script inspects: string,
    number, list of strings, nested dict, None) is the inductive type Value;
    a seller record is an association list of field name to Value, with dict
    lookup embedded as first-match association lookup.
  - the batch loop of main is embedded as a fuel-indexed structurally
    recursive function over the identifier list; the external API call is a
    parameter returning either a result mapping or an error string (a raised
    exception); the warning print and the sleep(2) on a failed batch are
    recorded as an explicit event trace.
-/

/-- ASCII whitespace as stripped by str.strip and matched by the regex
class for whitespace (space, tab, newline, carriage return, vertical tab,
form feed). -/
def isPySpace (c : Char) : Bool :=
  decide (c.toNat = 32 ∨ c.toNat = 9 ∨ c.toNat = 10 ∨ c.toNat = 13 ∨ c.toNat = 11 ∨ c.toNat = 12)

/-- Remove leading and trailing whitespace from a character list
(embedding of str.strip). -/
def stripList (l : List Char) : List Char :=
  ((l.dropWhile isPySpace).reverse.dropWhile isPySpace).reverse

/-- Embedding of the Python expression s.strip(). -/
def pyStrip (s : String) : String := String.mk (stripList s.data)

/-- ASCII upper-casing of one character (embedding of str.upper on one
character). -/
def pyUpperChar (c : Char) : Char :=
  if 97 ≤ c.toNat ∧ c.toNat ≤ 122 then Char.ofNat (c.toNat - 32) else c

/-- Embedding of the Python expression s.upper(). -/
def pyUpper (s : String) : String := String.mk (s.data.map pyUpperChar)

/-- ASCII letter, the character class of the regex [A-Za-z]. -/
def isAsciiAlpha (c : Char) : Bool :=
  decide ((65 ≤ c.toNat ∧ c.toNat ≤ 90) ∨ (97 ≤ c.toNat ∧ c.toNat ≤ 122))

/-- Embedding of re.fullmatch at the pattern of exactly two ASCII letters
(line 38 of the script). -/
def isTwoAlpha (s : String) : Bool :=
  s.data.length == 2 && s.data.all isAsciiAlpha

/-- Embedding of re.fullmatch at the pattern of two ASCII letters padded by
optional whitespace on both sides (line 44 of the script). -/
def fullmatchTwoAlphaPadded (s : String) : Bool :=
  match s.data.dropWhile isPySpace with
  | a :: b :: rest => isAsciiAlpha a && isAsciiAlpha b && rest.all isPySpace
  | _ => false

/-- Word character of the regex word-boundary semantics (ASCII letters,
digits, underscore). -/
def isWordChar (c : Char) : Bool :=
  isAsciiAlpha c || decide ((48 ≤ c.toNat ∧ c.toNat ≤ 57) ∨ c.toNat = 95)

/-- ASCII lower-casing of one character, used for the case-insensitive
regex match. -/
def pyLowerChar (c : Char) : Char :=
  if 65 ≤ c.toNat ∧ c.toNat ≤ 90 then Char.ofNat (c.toNat + 32) else c

/-- Match a lower-case literal pattern case-insensitively at the front of a
character list and return the remaining characters on success. -/
def matchLitCI : List Char → List Char → Option (List Char)
  | [], cs => some cs
  | _ :: _, [] => none
  | p :: ps, c :: cs => if p == pyLowerChar c then matchLitCI ps cs else none

/-- Match a two-word phrase (first word, one or more whitespace characters,
second word) case-insensitively at the front of a character list, returning
the remaining characters on success. -/
def matchPhraseRest (w1 w2 : List Char) (cs : List Char) : Option (List Char) :=
  match matchLitCI w1 cs with
  | some (c :: rest) =>
    if isPySpace c then matchLitCI w2 (rest.dropWhile isPySpace) else none
  | _ => none

/-- Word boundary to the left of the current position: start of string or a
non-word previous character. -/
def boundaryBefore : Option Char → Bool
  | none => true
  | some c => !isWordChar c

/-- Word boundary to the right of a successful literal match: the match
succeeded and the remaining input is empty or starts with a non-word
character. -/
def wordEnd : Option (List Char) → Bool
  | none => false
  | some [] => true
  | some (c :: _) => !isWordChar c

/-- One position of the script regex
(United whitespace Kingdom | Great whitespace Britain | boundary UK boundary |
boundary GB boundary), case-insensitive: does some alternative match starting
at the current position, given the previous character. -/
def matchAt (prev : Option Char) (cs : List Char) : Bool :=
  (matchPhraseRest "united".data "kingdom".data cs).isSome ||
  (matchPhraseRest "great".data "britain".data cs).isSome ||
  (boundaryBefore prev && wordEnd (matchLitCI "uk".data cs)) ||
  (boundaryBefore prev && wordEnd (matchLitCI "gb".data cs))

/-- Scan of re.search: try the pattern at every position. -/
def searchAux : Option Char → List Char → Bool
  | prev, [] => matchAt prev []
  | prev, c :: rest => matchAt prev (c :: rest) || searchAux (some c) rest

/-- Embedding of re.search with the UK/GB pattern of lines 40 and 46 of the
script, case-insensitive. -/
def ukSearch (s : String) : Bool := searchAux none s.data

/-- Only the two multi-word alternatives of the pattern at one position. -/
def phraseMatchAt (cs : List Char) : Bool :=
  (matchPhraseRest "united".data "kingdom".data cs).isSome ||
  (matchPhraseRest "great".data "britain".data cs).isSome

/-- Search for only the two multi-word alternatives of the pattern. -/
def phraseSearchAux : List Char → Bool
  | [] => phraseMatchAt []
  | c :: rest => phraseMatchAt (c :: rest) || phraseSearchAux rest

/-- Does United-whitespace-Kingdom or Great-whitespace-Britain occur
anywhere in the string, case-insensitively (no word boundaries required)? -/
def phraseSearch (s : String) : Bool := phraseSearchAux s.data

/-- Only the two word-bounded single-word alternatives of the pattern at one
position. -/
def ukgbMatchAt (prev : Option Char) (cs : List Char) : Bool :=
  (boundaryBefore prev && wordEnd (matchLitCI "uk".data cs)) ||
  (boundaryBefore prev && wordEnd (matchLitCI "gb".data cs))

/-- Search for only the two word-bounded single-word alternatives. -/
def ukgbSearchAux : Option Char → List Char → Bool
  | prev, [] => ukgbMatchAt prev []
  | prev, c :: rest => ukgbMatchAt prev (c :: rest) || ukgbSearchAux (some c) rest

/-- Does UK or GB occur as a whole word (word boundaries on both sides),
case-insensitively? -/
def ukgbWholeWordSearch (s : String) : Bool := ukgbSearchAux none s.data

/-- Modelled from the spec claim wording: the same four alternatives of the
pattern, but every alternative required to occur as a whole word or whole
phrase, with word boundaries on both sides.  This is the reading of the
claim that the pattern matches the four tokens only as whole words or
phrases; it is compared against the pattern the script actually uses. -/
def specMatchAt (prev : Option Char) (cs : List Char) : Bool :=
  (boundaryBefore prev && wordEnd (matchPhraseRest "united".data "kingdom".data cs)) ||
  (boundaryBefore prev && wordEnd (matchPhraseRest "great".data "britain".data cs)) ||
  (boundaryBefore prev && wordEnd (matchLitCI "uk".data cs)) ||
  (boundaryBefore prev && wordEnd (matchLitCI "gb".data cs))

/-- Scan for the whole-word reading of the pattern. -/
def specSearchAux : Option Char → List Char → Bool
  | prev, [] => specMatchAt prev []
  | prev, c :: rest => specMatchAt prev (c :: rest) || specSearchAux (some c) rest

/-- Whole-word occurrence of one of the four tokens of the pattern: true
exactly when some token occurs with word boundaries on both sides.  A string
on which this is false contains the tokens, if at all, only embedded in
longer words. -/
def specWholeWordSearch (s : String) : Bool := specSearchAux none s.data

/-- Embedding of the Python expression s.split(","): cut at every comma,
keeping empty segments, never returning an empty list. -/
def splitCommaAux : List Char → List Char → List String
  | acc, [] => [String.mk acc.reverse]
  | acc, c :: rest =>
    if c == ',' then String.mk acc.reverse :: splitCommaAux [] rest
    else splitCommaAux (c :: acc) rest

/-- Embedding of the Python expression s.split(","). -/
def splitComma (s : String) : List String := splitCommaAux [] s.data

/-- A loosely typed Python value of the shapes the script inspects: a
string, a number, a list of strings (address lines), a nested dict, or
None.  Every shape the extraction logic distinguishes is present. -/
inductive Value where
  | str (s : String)
  | int (n : Int)
  | list (l : List String)
  | dict (d : List (String × Value))
  | pynone

mutual

/-- Python repr of a value, used by str() on non-string values.  Quoting of
special characters inside strings is not modelled (no claim depends on it);
the decimal rendering of numbers and the bracketing are modelled. -/
def pyRepr : Value → String
  | Value.str s => "\x27" ++ s ++ "\x27"
  | Value.int n => toString n
  | Value.list l =>
    "[" ++ String.intercalate ", " (l.map (fun s => "\x27" ++ s ++ "\x27")) ++ "]"
  | Value.dict d => "\x7b" ++ pyReprEntries d ++ "\x7d"
  | Value.pynone => "None"

/-- Python repr of the entries of a dict, comma separated. -/
def pyReprEntries : List (String × Value) → String
  | [] => ""
  | [(k, v)] => "\x27" ++ k ++ "\x27: " ++ pyRepr v
  | (k, v) :: rest => "\x27" ++ k ++ "\x27: " ++ pyRepr v ++ ", " ++ pyReprEntries rest

end

/-- Embedding of the Python function str() on a value: a string is returned
unchanged, anything else is rendered by repr. -/
def pyToStr : Value → String
  | Value.str s => s
  | v => pyRepr v

/-- Python truthiness of a value. -/
def pyTruthy : Value → Bool
  | Value.str s => !(s == "")
  | Value.int n => !(n == 0)
  | Value.list l => !l.isEmpty
  | Value.dict d => !d.isEmpty
  | Value.pynone => false

/-- Embedding of the Python expression (x or ""), where x is the result of a
dict .get (None when the key is absent): the value when truthy, the empty
string otherwise. -/
def pyOr (v : Option Value) : Value :=
  match v with
  | some w => if pyTruthy w then w else Value.str ""
  | none => Value.str ""

/-- Embedding of dict .get: first-match lookup in an association list,
None (absent) when the key is not present. -/
def dictGet (d : List (String × Value)) (k : String) : Option Value :=
  (d.find? (fun p => p.1 == k)).map (fun p => p.2)

/-- The direct country fields checked first (line 24 of the script), in
order. -/
def direct_keys : List String := ["establishedCountry", "countryCode", "country"]

/-- The address-like fields checked second (lines 29 to 32 of the script),
in order. -/
def candidate_keys : List String :=
  ["businessAddress", "registrationAddress", "address", "storefrontAddress", "sellerAddress"]

/-- The keys checked inside the nested extra dict (line 51 of the script),
in order. -/
def extra_keys : List String := ["country", "countryCode", "establishedCountry"]

/-- One direct-field check (lines 25 to 27 of the script, also the body of
the extra loop on lines 52 to 54): a string value that is non-empty after
stripping is returned stripped and upper-cased. -/
def directField (r : List (String × Value)) (k : String) : Option String :=
  match dictGet r k with
  | some (Value.str s) =>
    if pyStrip s ≠ "" then some (pyUpper (pyStrip s)) else none
  | _ => none

/-- Step 1 of the extraction: the first direct field holding a non-empty
string wins (lines 24 to 27). -/
def extractStep1 (r : List (String × Value)) : Option String :=
  direct_keys.findSome? (directField r)

/-- One address-like value check (lines 36 to 47 of the script): a
non-empty list is judged by its last element; a non-empty string is judged
by its trailing comma segment and, failing that, by a regex search over the
whole original string; every other shape is skipped. -/
def addressField (v : Value) : Option String :=
  match v with
  | Value.list l =>
    if l.isEmpty then none
    else
      if isTwoAlpha (pyStrip (l.getLastD "")) then some (pyUpper (pyStrip (l.getLastD "")))
      else if ukSearch (pyStrip (l.getLastD "")) then some "GB"
      else none
  | Value.str s =>
    if pyStrip s ≠ "" then
      if fullmatchTwoAlphaPadded ((splitComma (pyStrip s)).getLastD "") then
        some (pyUpper (pyStrip ((splitComma (pyStrip s)).getLastD "")))
      else if ukSearch s then some "GB"
      else none
    else none
  | _ => none

/-- Step 2 of the extraction: the first address-like field that yields a
determination wins (lines 34 to 47). -/
def extractStep2 (r : List (String × Value)) : Option String :=
  candidate_keys.findSome? (fun k => (dictGet r k).bind addressField)

/-- Step 3 of the extraction: the nested extra dict, with its own key
order (lines 49 to 54). -/
def extractStep3 (r : List (String × Value)) : Option String :=
  match dictGet r "extra" with
  | some (Value.dict extra) => extra_keys.findSome? (directField extra)
  | _ => none

/-- Embedding of extract_country_from_seller (lines 22 to 55 of the
script): direct fields first, then address-like fields, then the nested
extra dict, None when nothing matched. -/
def extract_country_from_seller (seller_obj : List (String × Value)) : Option String :=
  match extractStep1 seller_obj with
  | some c => some c
  | none =>
    match extractStep2 seller_obj with
    | some c => some c
    | none => extractStep3 seller_obj

/-- Embedding of amazon_seller_url (lines 57 to 59 of the script). -/
def amazon_seller_url (seller_id : String) (domain : String) : String :=
  let tld :=
    if domain = "DE" then "de"
    else if domain = "GB" then "co.uk"
    else if domain = "US" then "com"
    else "de"
  "https://www.amazon." ++ tld ++ "/sp?seller=" ++ seller_id

/-- Embedding of keepa_seller_url (lines 61 to 62 of the script). -/
def keepa_seller_url (seller_id : String) (domain : String) : String :=
  "https://keepa.com/#!seller/" ++ domain ++ "/" ++ seller_id

/-- One output CSV row (the dict appended on lines 91 to 97 of the
script). -/
structure OutputRow where
  sellerId : String
  sellerName : String
  establishedCountry : String
  amazonUrl : String
  keepaUrl : String
deriving DecidableEq

/-- Handling of one identifier of a batch (lines 85 to 97 of the script):
look the identifier up in the result mapping, skip missing or non-dict
results, extract the country, and build a row exactly when the country is
GB or UK. -/
def rowFor (sid : String) (lookup : Option Value) : Option OutputRow :=
  match lookup with
  | some (Value.dict s) =>
    match extract_country_from_seller s with
    | some country =>
      if country = "GB" ∨ country = "UK" then
        some { sellerId := sid,
               sellerName := pyStrip (pyToStr (pyOr (dictGet s "sellerName"))),
               establishedCountry := country,
               amazonUrl := amazon_seller_url sid "DE",
               keepaUrl := keepa_seller_url sid "DE" }
      else none
    | none => none
  | _ => none

/-- The rows produced by one successfully queried batch, in batch order. -/
def rowsForBatch (data : List (String × Value)) (batch : List String) : List OutputRow :=
  batch.filterMap (fun sid => rowFor sid (dictGet data sid))

/-- Observable side effects of the batch loop other than the rows: the
warning print and the sleep on a failed batch. -/
inductive Event where
  | warn (msg : String)
  | sleep (seconds : Nat)
deriving DecidableEq

/-- The warning message of line 99 of the script for the batch starting at
index 100 * j (the printed batch number is j + 1). -/
def warnMsg (j : Nat) (e : String) : String :=
  "[warn] batch " ++ toString (j + 1) ++ " failed: " ++ e

/-- The batch size of the script (line 79). -/
def BATCH : Nat := 100

/-- The batch loop of main (lines 81 to 100 of the script), fuel-indexed so
that it is structurally recursive and computable; fuel at least the length
of the identifier list suffices.  The API call is the parameter api,
returning the result mapping or the message of a raised exception.  Each
iteration takes a slice of at most 100 identifiers starting at index i; on
success the rows of the batch are appended, on failure a warning naming the
batch number and the error is recorded followed by a sleep of 2 seconds,
and the loop continues with the next slice. -/
def mainLoop (api : List String → Except String (List (String × Value))) :
    Nat → Nat → List String → List OutputRow × List Event
  | 0, _, _ => ([], [])
  | _ + 1, _, [] => ([], [])
  | fuel + 1, i, x :: xs =>
    let ids := x :: xs
    let batch := ids.take BATCH
    let rest := mainLoop api fuel (i + BATCH) (ids.drop BATCH)
    match api batch with
    | Except.ok data => (rowsForBatch data batch ++ rest.1, rest.2)
    | Except.error e =>
      (rest.1, Event.warn ("[warn] batch " ++ toString (i / BATCH + 1) ++ " failed: " ++ e)
                 :: Event.sleep 2 :: rest.2)

/-- A whole run of the batch loop over an identifier list. -/
def main_run (api : List String → Except String (List (String × Value)))
    (ids : List String) : List OutputRow × List Event :=
  mainLoop api ids.length 0 ids

/-- The rows accumulated by a run (the list later written to the CSV). -/
def main_rows (api : List String → Except String (List (String × Value)))
    (ids : List String) : List OutputRow :=
  (main_run api ids).1

/-- The warning and sleep events of a run, in order. -/
def main_events (api : List String → Except String (List (String × Value)))
    (ids : List String) : List Event :=
  (main_run api ids).2

/-- The consecutive slices of at most 100 identifiers the loop processes,
fuel-indexed like the loop itself. -/
def chunks100Fuel : Nat → List String → List (List String)
  | 0, _ => []
  | _ + 1, [] => []
  | fuel + 1, x :: xs => (x :: xs).take BATCH :: chunks100Fuel fuel ((x :: xs).drop BATCH)

/-- The consecutive slices of at most 100 identifiers of a list. -/
def chunks100 (ids : List String) : List (List String) :=
  chunks100Fuel ids.length ids

/-- The rows contributed by one batch: the extracted rows on success,
nothing on failure. -/
def chunkRows (api : List String → Except String (List (String × Value)))
    (b : List String) : List OutputRow :=
  match api b with
  | Except.ok data => rowsForBatch data b
  | Except.error _ => []

/-- The events contributed by the batches from batch number j on. -/
def eventsOfChunks (api : List String → Except String (List (String × Value))) :
    Nat → List (List String) → List Event
  | _, [] => []
  | j, b :: bs =>
    (match api b with
     | Except.ok _ => []
     | Except.error e => [Event.warn (warnMsg j e), Event.sleep 2]) ++
    eventsOfChunks api (j + 1) bs

/-- The input file name (line 19 of the script). -/
def INPUT_FILE : String := "seller_ids.txt"

/-- The output file name (line 20 of the script). -/
def OUTPUT_FILE : String := "gb_sellers_in_de.csv"

/-- Embedding of the input loading of main (lines 66 to 73 of the script).
The file is modelled as None when it does not exist and as its list of
lines otherwise; SystemExit is modelled as the error case.  The line
comprehension keeps the stripped form of every line whose stripped form is
non-empty, in file order. -/
def load_input (file : Option (List String)) : Except String (List String) :=
  match file with
  | none => Except.error ("Missing " ++ INPUT_FILE ++ ". Create it with one seller ID per line.")
  | some lines =>
    let seller_ids := lines.filterMap
      (fun line => if pyStrip line ≠ "" then some (pyStrip line) else none)
    if seller_ids = [] then
      Except.error (INPUT_FILE ++ " has no seller IDs. Add at least one.")
    else Except.ok seller_ids

/-- The sequence the spec describes for the loader: the whitespace-trimmed
lines with the blank ones discarded, in file order. -/
def specTrimmedLines (lines : List String) : List String :=
  (lines.map pyStrip).filter (fun s => s ≠ "")

/-- Packing a small code point and reading it back is the identity. -/
theorem toNat_ofNat_of_lt (n : Nat) (h : n < 55296) : (Char.ofNat n).toNat = n := by
  rw [Char.ofNat, dif_pos (Or.inl h)]
  rfl

/-- Characters with equal code points are equal. -/
theorem char_eq_of_toNat_eq {a b : Char} (h : a.toNat = b.toNat) : a = b := by
  have ha := Char.ofNat_toNat a
  have hb := Char.ofNat_toNat b
  rw [← ha, ← hb, h]

/-- Upper-casing one character is idempotent. -/
theorem pyUpperChar_idem (c : Char) : pyUpperChar (pyUpperChar c) = pyUpperChar c := by
  by_cases h : 97 ≤ c.toNat ∧ c.toNat ≤ 122
  · have hv : (Char.ofNat (c.toNat - 32)).toNat = c.toNat - 32 :=
      toNat_ofNat_of_lt _ (by omega)
    simp only [pyUpperChar, if_pos h]
    rw [if_neg (by rw [hv]; omega)]
  · simp only [pyUpperChar, if_neg h]

/-- Upper-casing one character preserves whether it is whitespace. -/
theorem isPySpace_pyUpperChar (c : Char) : isPySpace (pyUpperChar c) = isPySpace c := by
  by_cases h : 97 ≤ c.toNat ∧ c.toNat ≤ 122
  · have hv : (Char.ofNat (c.toNat - 32)).toNat = c.toNat - 32 :=
      toNat_ofNat_of_lt _ (by omega)
    simp only [pyUpperChar, if_pos h, isPySpace, hv, decide_eq_decide]
    omega
  · simp only [pyUpperChar, if_neg h]

/-- Dropping by a predicate twice is the same as dropping once. -/
theorem dropWhile_idem (p : α → Bool) (l : List α) :
    (l.dropWhile p).dropWhile p = l.dropWhile p := by
  induction l with
  | nil => rfl
  | cons a t ih =>
    by_cases h : p a
    · simp [List.dropWhile_cons_of_pos h, ih]
    · simp [List.dropWhile_cons_of_neg h]

/-- The head surviving a dropWhile does not satisfy the predicate. -/
theorem dropWhile_head_false (p : α → Bool) :
    ∀ (l : List α) (a : α) (t : List α), l.dropWhile p = a :: t → p a = false := by
  intro l
  induction l with
  | nil => intro a t h; simp at h
  | cons x xs ih =>
    intro a t h
    by_cases hx : p x
    · rw [List.dropWhile_cons_of_pos hx] at h
      exact ih a t h
    · rw [List.dropWhile_cons_of_neg hx] at h
      cases h
      simpa [Bool.not_eq_true] using hx

/-- Stripping a character list twice is the same as stripping once. -/
theorem stripList_idem (l : List Char) : stripList (stripList l) = stripList l := by
  have hfront : (stripList l).dropWhile isPySpace = stripList l := by
    cases hur : stripList l with
    | nil => simp
    | cons a t =>
      have hsuf : ((l.dropWhile isPySpace).reverse.dropWhile isPySpace)
          <:+ (l.dropWhile isPySpace).reverse := List.dropWhile_suffix _
      have hpre : stripList l <+: l.dropWhile isPySpace := by
        have := Iff.mpr List.reverse_prefix hsuf
        simpa [stripList] using this
      obtain ⟨t2, ht2⟩ := hpre
      rw [hur] at ht2
      have hd : l.dropWhile isPySpace = a :: (t ++ t2) := by
        rw [← ht2]; simp
      have ha : isPySpace a = false := dropWhile_head_false _ l a (t ++ t2) hd
      rw [List.dropWhile_cons_of_neg (by simp [ha])]
  show ((( stripList l).dropWhile isPySpace).reverse.dropWhile isPySpace).reverse = stripList l
  rw [hfront]
  show (((( l.dropWhile isPySpace).reverse.dropWhile isPySpace).reverse).reverse.dropWhile
      isPySpace).reverse = stripList l
  rw [List.reverse_reverse, dropWhile_idem]
  rfl

/-- Stripping commutes with character-wise upper-casing. -/
theorem stripList_map_upper (l : List Char) :
    stripList (l.map pyUpperChar) = (stripList l).map pyUpperChar := by
  have hcomp : (isPySpace ∘ pyUpperChar) = isPySpace := funext isPySpace_pyUpperChar
  unfold stripList
  rw [List.dropWhile_map, hcomp, ← List.map_reverse, List.dropWhile_map, hcomp,
    ← List.map_reverse]

/-- Upper-casing a string is idempotent. -/
theorem pyUpper_idem (s : String) : pyUpper (pyUpper s) = pyUpper s := by
  show String.mk (((s.data.map pyUpperChar)).map pyUpperChar) = String.mk (s.data.map pyUpperChar)
  rw [List.map_map]
  exact congrArg String.mk (List.map_congr_left (fun a _ => pyUpperChar_idem a))

/-- Stripping after upper-casing is upper-casing after stripping. -/
theorem pyStrip_pyUpper (s : String) : pyStrip (pyUpper s) = pyUpper (pyStrip s) := by
  show String.mk (stripList (s.data.map pyUpperChar)) = String.mk ((stripList s.data).map pyUpperChar)
  rw [stripList_map_upper]

/-- Stripping a string is idempotent. -/
theorem pyStrip_idem (s : String) : pyStrip (pyStrip s) = pyStrip s := by
  show String.mk (stripList (stripList s.data)) = String.mk (stripList s.data)
  rw [stripList_idem]

/-- A value of the shape upper-of-strip is already stripped and already
upper-cased. -/
theorem upperStrip_normalized (x : String) :
    pyStrip (pyUpper (pyStrip x)) = pyUpper (pyStrip x) ∧
    pyUpper (pyUpper (pyStrip x)) = pyUpper (pyStrip x) := by
  constructor
  · rw [pyStrip_pyUpper, pyStrip_idem]
  · exact pyUpper_idem _

/-- Every string produced by a direct-field check has the shape
upper-of-strip. -/
theorem directField_shape {r : List (String × Value)} {k c : String}
    (h : directField r k = some c) : ∃ s, c = pyUpper (pyStrip s) := by
  cases hd : dictGet r k with
  | none => simp only [directField, hd] at h; exact Option.noConfusion h
  | some v =>
    cases v with
    | str s =>
      simp only [directField, hd] at h
      by_cases hs : pyStrip s ≠ ""
      · rw [if_pos hs] at h
        exact ⟨s, (Option.some.inj h).symm⟩
      · rw [if_neg hs] at h
        exact Option.noConfusion h
    | int n => simp only [directField, hd] at h; exact Option.noConfusion h
    | list l => simp only [directField, hd] at h; exact Option.noConfusion h
    | dict d => simp only [directField, hd] at h; exact Option.noConfusion h
    | pynone => simp only [directField, hd] at h; exact Option.noConfusion h

/-- Every string produced by an address-like check is the literal GB or has
the shape upper-of-strip. -/
theorem addressField_shape {v : Value} {c : String}
    (h : addressField v = some c) : c = "GB" ∨ ∃ x, c = pyUpper (pyStrip x) := by
  cases v with
  | str s =>
    simp only [addressField] at h
    by_cases hs : pyStrip s ≠ ""
    · rw [if_pos hs] at h
      by_cases hf : fullmatchTwoAlphaPadded ((splitComma (pyStrip s)).getLastD "") = true
      · rw [if_pos hf] at h
        exact Or.inr ⟨(splitComma (pyStrip s)).getLastD "", (Option.some.inj h).symm⟩
      · rw [if_neg hf] at h
        by_cases hu : ukSearch s = true
        · rw [if_pos hu] at h
          exact Or.inl (Option.some.inj h).symm
        · rw [if_neg hu] at h
          exact Option.noConfusion h
    · rw [if_neg hs] at h
      exact Option.noConfusion h
  | list l =>
    simp only [addressField] at h
    by_cases he : l.isEmpty = true
    · rw [if_pos he] at h
      exact Option.noConfusion h
    · rw [if_neg he] at h
      by_cases h2 : isTwoAlpha (pyStrip (l.getLastD "")) = true
      · rw [if_pos h2] at h
        exact Or.inr ⟨l.getLastD "", (Option.some.inj h).symm⟩
      · rw [if_neg h2] at h
        by_cases hu : ukSearch (pyStrip (l.getLastD "")) = true
        · rw [if_pos hu] at h
          exact Or.inl (Option.some.inj h).symm
        · rw [if_neg hu] at h
          exact Option.noConfusion h
  | int n => simp only [addressField] at h; exact Option.noConfusion h
  | dict d => simp only [addressField] at h; exact Option.noConfusion h
  | pynone => simp only [addressField] at h; exact Option.noConfusion h

/-- Every determined extraction result is the literal GB or has the shape
upper-of-strip. -/
theorem extract_shape {r : List (String × Value)} {c : String}
    (h : extract_country_from_seller r = some c) :
    c = "GB" ∨ ∃ x, c = pyUpper (pyStrip x) := by
  unfold extract_country_from_seller at h
  cases h1 : extractStep1 r with
  | some c1 =>
    rw [h1] at h
    cases h
    obtain ⟨k, _, hk⟩ := List.exists_of_findSome?_eq_some h1
    exact Or.inr (directField_shape hk)
  | none =>
    rw [h1] at h
    cases h2 : extractStep2 r with
    | some c2 =>
      rw [h2] at h
      cases h
      obtain ⟨k, _, hk⟩ := List.exists_of_findSome?_eq_some h2
      obtain ⟨v, _, hav⟩ := Option.bind_eq_some.mp hk
      exact addressField_shape hav
    | none =>
      rw [h2] at h
      cases hx : dictGet r "extra" with
      | none => simp only [extractStep3, hx] at h; exact Option.noConfusion h
      | some v =>
        cases v with
        | dict extra =>
          simp only [extractStep3, hx] at h
          obtain ⟨k, _, hk⟩ := List.exists_of_findSome?_eq_some h
          exact Or.inr (directField_shape hk)
        | str s => simp only [extractStep3, hx] at h; exact Option.noConfusion h
        | int n => simp only [extractStep3, hx] at h; exact Option.noConfusion h
        | list l => simp only [extractStep3, hx] at h; exact Option.noConfusion h
        | pynone => simp only [extractStep3, hx] at h; exact Option.noConfusion h

/-- C10: whenever country inference returns a determined result on any
record, that result is normalized: it has no leading or trailing whitespace
and is equal to its own upper-cased form, on every return path of the
function. -/
theorem c10_extract_result_normalized (r : List (String × Value)) (c : String)
    (h : extract_country_from_seller r = some c) :
    pyStrip c = c ∧ pyUpper c = c := by
  rcases extract_shape h with hGB | ⟨x, rfl⟩
  · subst hGB
    exact ⟨rfl, rfl⟩
  · exact ⟨(upperStrip_normalized x).1, (upperStrip_normalized x).2⟩

/-- Witness for C10: the normalization theorem applied to a concrete
record whose extraction succeeds. -/
theorem c10_witness :
    extract_country_from_seller [("country", Value.str "gb")] = some "GB" ∧
    (pyStrip "GB" = "GB" ∧ pyUpper "GB" = "GB") :=
  ⟨rfl, c10_extract_result_normalized [("country", Value.str "gb")] "GB" rfl⟩

/-- One position of the pattern splits into the boundary-free phrase
alternatives and the word-bounded UK/GB alternatives. -/
theorem matchAt_decomp (prev : Option Char) (cs : List Char) :
    matchAt prev cs = (phraseMatchAt cs || ukgbMatchAt prev cs) := by
  unfold matchAt phraseMatchAt ukgbMatchAt
  generalize (matchPhraseRest "united".data "kingdom".data cs).isSome = a
  generalize (matchPhraseRest "great".data "britain".data cs).isSome = b
  generalize (boundaryBefore prev && wordEnd (matchLitCI "uk".data cs)) = u
  generalize (boundaryBefore prev && wordEnd (matchLitCI "gb".data cs)) = g
  cases a <;> cases b <;> cases u <;> cases g <;> rfl

/-- The script regex search splits into the boundary-free phrase search and
the word-bounded UK/GB search. -/
theorem searchAux_decomp (cs : List Char) : ∀ (prev : Option Char),
    searchAux prev cs = (phraseSearchAux cs || ukgbSearchAux prev cs) := by
  induction cs with
  | nil =>
    intro prev
    simp only [searchAux, phraseSearchAux, ukgbSearchAux, matchAt_decomp]
  | cons c rest ih =>
    intro prev
    simp only [searchAux, phraseSearchAux, ukgbSearchAux, matchAt_decomp, ih]
    generalize phraseMatchAt (c :: rest) = p
    generalize ukgbMatchAt prev (c :: rest) = u
    generalize phraseSearchAux rest = q
    generalize ukgbSearchAux (some c) rest = w
    cases p <;> cases u <;> cases q <;> cases w <;> rfl

/-- C3 amended: word boundaries are enforced only on the UK and GB
alternatives of the pattern.  For every string in which neither multi-word
phrase (United whitespace Kingdom, Great whitespace Britain) occurs as a
case-insensitive substring and in which UK and GB occur, if at all, only
without word boundaries (embedded in longer words), the pattern does not
match. -/
theorem c3_pattern_wholeword_amended (s : String)
    (h1 : phraseSearch s = false) (h2 : ukgbWholeWordSearch s = false) :
    ukSearch s = false := by
  unfold ukSearch
  rw [searchAux_decomp]
  unfold phraseSearch at h1
  unfold ukgbWholeWordSearch at h2
  rw [h1, h2]
  rfl

/-- Counterexample for C3 as stated: in the string
1 REUNITED KINGDOMS ROAD all four tokens occur, if at all, only embedded
inside longer words (no whole-word or whole-phrase occurrence), yet the
pattern matches and the extraction returns GB for a record carrying the
string as its address. -/
theorem c3_counterexample :
    specWholeWordSearch "1 REUNITED KINGDOMS ROAD" = false ∧
    ukSearch "1 REUNITED KINGDOMS ROAD" = true ∧
    extract_country_from_seller [("address", Value.str "1 REUNITED KINGDOMS ROAD")] = some "GB" :=
  ⟨by decide, by decide, by decide⟩

/-- Witness for the amended C3: a string in which uk and gb occur only
embedded in longer words and no multi-word phrase occurs; the pattern does
not match it. -/
theorem c3_amended_witness :
    phraseSearch "LUKE GBA" = false ∧ ukgbWholeWordSearch "LUKE GBA" = false ∧
    ukSearch "LUKE GBA" = false :=
  ⟨by decide, by decide, c3_pattern_wholeword_amended "LUKE GBA" (by decide) (by decide)⟩

/-- Whitespace characters are not letters. -/
theorem not_alpha_of_space (x : Char) (h : isPySpace x = true) : isAsciiAlpha x = false := by
  simp only [isPySpace, decide_eq_true_eq] at h
  simp only [isAsciiAlpha, decide_eq_false_iff_not]
  omega

/-- The padded two-letter fullmatch of line 44 holds exactly when the
stripped string consists of exactly two ASCII letters. -/
theorem fullmatch_eq_isTwoAlpha_pyStrip (t : String) :
    fullmatchTwoAlphaPadded t = isTwoAlpha (pyStrip t) := by
  have hdata : (pyStrip t).data = stripList t.data := rfl
  unfold fullmatchTwoAlphaPadded isTwoAlpha
  rw [hdata]
  unfold stripList
  cases hd : t.data.dropWhile isPySpace with
  | nil => simp [hd]
  | cons a dtail =>
    have ha : isPySpace a = false := dropWhile_head_false _ _ _ _ hd
    cases dtail with
    | nil => simp [hd, ha]
    | cons b rest =>
      have hrev : (a :: b :: rest).reverse = rest.reverse ++ [b, a] := by
        simp [List.reverse_cons, List.append_assoc]
      by_cases hall : rest.all isPySpace = true
      · have hallrev : ∀ x ∈ rest.reverse, isPySpace x = true := by
          intro x hx
          exact (List.all_eq_true.mp hall) x (List.mem_reverse.mp hx)
        by_cases hb : isPySpace b = true
        · have hbna : isAsciiAlpha b = false := not_alpha_of_space b hb
          have hdrop : (rest.reverse ++ [b, a]).dropWhile isPySpace = [a] := by
            have h1 : ∀ x ∈ rest.reverse ++ [b], isPySpace x = true := by
              intro x hx
              rcases List.mem_append.mp hx with hx1 | hx1
              · exact hallrev x hx1
              · rw [List.mem_singleton.mp hx1]; exact hb
            have hsplit : rest.reverse ++ [b, a] = (rest.reverse ++ [b]) ++ [a] := by
              simp [List.append_assoc]
            rw [hsplit, List.dropWhile_append_of_pos h1]
            simp [List.dropWhile_cons, ha]
          simp [hd, hrev, hdrop, hbna]
        · have hdrop : (rest.reverse ++ [b, a]).dropWhile isPySpace = [b, a] := by
            rw [List.dropWhile_append_of_pos hallrev]
            simp [List.dropWhile_cons, hb]
          simp [hd, hrev, hdrop, hall, Bool.and_comm]
      · have hne : rest.reverse.dropWhile isPySpace ≠ [] := by
          intro hnil
          apply hall
          apply List.all_eq_true.mpr
          intro x hx
          exact (List.dropWhile_eq_nil_iff.mp hnil) x (List.mem_reverse.mpr hx)
        have hallf : rest.all isPySpace = false := by
          cases hx : rest.all isPySpace with
          | false => rfl
          | true => exact absurd hx hall
        have hdrop : (rest.reverse ++ [b, a]).dropWhile isPySpace =
            rest.reverse.dropWhile isPySpace ++ [b, a] := by
          rw [List.dropWhile_append]
          rw [if_neg (by simpa [List.isEmpty_eq_true] using hne)]
        have hlen2 : (rest.reverse.dropWhile isPySpace ++ [b, a]).length ≠ 2 := by
          have h1 : 1 ≤ (rest.reverse.dropWhile isPySpace).length :=
            Nat.one_le_iff_ne_zero.mpr (fun h0 => hne (List.eq_nil_of_length_eq_zero h0))
          have h2 : ([b, a] : List Char).length = 2 := rfl
          rw [List.length_append, h2]
          omega
        have hbeqf : (((rest.reverse.dropWhile isPySpace ++ [b, a]).reverse).length == 2) = false := by
          rw [List.length_reverse]
          exact beq_false_of_ne hlen2
        simp only [hd, hrev, hdrop, hallf, hbeqf, Bool.and_false, Bool.false_and]

/-- On a record whose only field is a string-valued address, the extraction
is exactly the string case of the address scan. -/
theorem extract_single_address (s : String) :
    extract_country_from_seller [("address", Value.str s)] = addressField (Value.str s) := by
  have e1 : extractStep1 [("address", Value.str s)] = none := rfl
  have e3 : extractStep3 [("address", Value.str s)] = none := rfl
  have d1 : dictGet [("address", Value.str s)] "businessAddress" = none := rfl
  have d2 : dictGet [("address", Value.str s)] "registrationAddress" = none := rfl
  have d3 : dictGet [("address", Value.str s)] "address" = some (Value.str s) := rfl
  have d4 : dictGet [("address", Value.str s)] "storefrontAddress" = none := rfl
  have d5 : dictGet [("address", Value.str s)] "sellerAddress" = none := rfl
  cases hav : addressField (Value.str s) with
  | some c =>
    have h2 : extractStep2 [("address", Value.str s)] = some c := by
      unfold extractStep2 candidate_keys
      simp only [List.findSome?_cons, List.findSome?_nil, d1, d2, d3, d4, d5,
        Option.none_bind, Option.some_bind, hav]
    unfold extract_country_from_seller
    simp only [e1, h2]
  | none =>
    have h2 : extractStep2 [("address", Value.str s)] = none := by
      unfold extractStep2 candidate_keys
      simp only [List.findSome?_cons, List.findSome?_nil, d1, d2, d3, d4, d5,
        Option.none_bind, Option.some_bind, hav]
    unfold extract_country_from_seller
    simp only [e1, h2, e3]

/-- C4: country inference step 2, single-string case.  For every record
whose address field holds a string that is non-empty after stripping, the
string is split on commas and the trailing segment taken; if that segment
is exactly two ASCII letters ignoring surrounding whitespace (the padded
fullmatch, shown equal to the two-letter test of the stripped segment), its
stripped upper-cased form is returned; otherwise, if the entire original
string matches the UK/GB pattern, GB is returned; otherwise nothing.  In
particular the record with address 10 Downing St, London, GB yields GB. -/
theorem c4_address_string_case :
    (∀ t, fullmatchTwoAlphaPadded t = isTwoAlpha (pyStrip t)) ∧
    (∀ s, pyStrip s ≠ "" →
      extract_country_from_seller [("address", Value.str s)] =
        (if fullmatchTwoAlphaPadded ((splitComma (pyStrip s)).getLastD "") then
           some (pyUpper (pyStrip ((splitComma (pyStrip s)).getLastD "")))
         else if ukSearch s then some "GB" else none)) ∧
    extract_country_from_seller [("address", Value.str "10 Downing St, London, GB")] = some "GB" := by
  refine ⟨fullmatch_eq_isTwoAlpha_pyStrip, ?_, by decide⟩
  intro s hs
  rw [extract_single_address]
  simp only [addressField]
  rw [if_pos hs]

/-- Witness for C4 at a concrete address string taking the two-letter
trailing-segment path. -/
theorem c4_witness :
    pyStrip "Berlin, de" ≠ "" ∧
    extract_country_from_seller [("address", Value.str "Berlin, de")] =
      (if fullmatchTwoAlphaPadded ((splitComma (pyStrip "Berlin, de")).getLastD "") then
         some (pyUpper (pyStrip ((splitComma (pyStrip "Berlin, de")).getLastD "")))
       else if ukSearch "Berlin, de" then some "GB" else none) :=
  ⟨by decide, c4_address_string_case.2.1 "Berlin, de" (by decide)⟩

/-- C5: country inference step 1.  The direct fields are checked in the
exact order establishedCountry, countryCode, country; the first one holding
a string that is non-empty after stripping is returned stripped and
upper-cased immediately, with no two-letter validation (any non-empty
string of any length) and without consulting address fields.  The order is
pinned by both adjacent pairs on records carrying two competing non-empty
values: establishedCountry beats countryCode, country beats neither, and
countryCode beats country.  In particular the record with country gb
yields GB. -/
theorem c5_direct_fields :
    (∀ v : String, pyStrip v ≠ "" →
      extract_country_from_seller [("establishedCountry", Value.str v)] =
        some (pyUpper (pyStrip v))) ∧
    (∀ v w : String, pyStrip v ≠ "" →
      extract_country_from_seller [("countryCode", Value.str w), ("establishedCountry", Value.str v)] =
        some (pyUpper (pyStrip v))) ∧
    (∀ v w : String, pyStrip v ≠ "" →
      extract_country_from_seller [("country", Value.str w), ("establishedCountry", Value.str v)] =
        some (pyUpper (pyStrip v))) ∧
    (∀ v w : String, pyStrip v ≠ "" →
      extract_country_from_seller [("country", Value.str w), ("countryCode", Value.str v)] =
        some (pyUpper (pyStrip v))) ∧
    (∀ v : String, pyStrip v ≠ "" →
      extract_country_from_seller [("country", Value.str v), ("address", Value.str "x, FR")] =
        some (pyUpper (pyStrip v))) ∧
    extract_country_from_seller [("country", Value.str "gb")] = some "GB" := by
  refine ⟨?_, ?_, ?_, ?_, ?_, by decide⟩
  · intro v h
    have d1 : dictGet [("establishedCountry", Value.str v)] "establishedCountry" =
        some (Value.str v) := rfl
    unfold extract_country_from_seller extractStep1 direct_keys
    simp only [List.findSome?_cons, List.findSome?_nil, directField, d1]
    rw [if_pos h]
  · intro v w h
    have d1 : dictGet [("countryCode", Value.str w), ("establishedCountry", Value.str v)]
        "establishedCountry" = some (Value.str v) := rfl
    unfold extract_country_from_seller extractStep1 direct_keys
    simp only [List.findSome?_cons, List.findSome?_nil, directField, d1]
    rw [if_pos h]
  · intro v w h
    have d1 : dictGet [("country", Value.str w), ("establishedCountry", Value.str v)]
        "establishedCountry" = some (Value.str v) := rfl
    unfold extract_country_from_seller extractStep1 direct_keys
    simp only [List.findSome?_cons, List.findSome?_nil, directField, d1]
    rw [if_pos h]
  · intro v w h
    have d1 : dictGet [("country", Value.str w), ("countryCode", Value.str v)]
        "establishedCountry" = none := rfl
    have d2 : dictGet [("country", Value.str w), ("countryCode", Value.str v)]
        "countryCode" = some (Value.str v) := rfl
    unfold extract_country_from_seller extractStep1 direct_keys
    simp only [List.findSome?_cons, List.findSome?_nil, directField, d1, d2]
    rw [if_pos h]
  · intro v h
    have d1 : dictGet [("country", Value.str v), ("address", Value.str "x, FR")]
        "establishedCountry" = none := rfl
    have d2 : dictGet [("country", Value.str v), ("address", Value.str "x, FR")]
        "countryCode" = none := rfl
    have d3 : dictGet [("country", Value.str v), ("address", Value.str "x, FR")]
        "country" = some (Value.str v) := rfl
    unfold extract_country_from_seller extractStep1 direct_keys
    simp only [List.findSome?_cons, List.findSome?_nil, directField, d1, d2, d3]
    rw [if_pos h]

/-- Witness for C5: each universally quantified part applied at concrete
records, including a direct value much longer than two letters and a
record where establishedCountry and countryCode compete with different
non-empty values. -/
theorem c5_witness :
    extract_country_from_seller [("establishedCountry", Value.str "United Kingdom")] =
      some (pyUpper (pyStrip "United Kingdom")) ∧
    extract_country_from_seller [("countryCode", Value.str "fr"), ("establishedCountry", Value.str "gb")] =
      some (pyUpper (pyStrip "gb")) ∧
    extract_country_from_seller [("country", Value.str "fr"), ("establishedCountry", Value.str "gb")] =
      some (pyUpper (pyStrip "gb")) ∧
    extract_country_from_seller [("country", Value.str "fr"), ("countryCode", Value.str "gb")] =
      some (pyUpper (pyStrip "gb")) ∧
    extract_country_from_seller [("country", Value.str "gb"), ("address", Value.str "x, FR")] =
      some (pyUpper (pyStrip "gb")) :=
  ⟨c5_direct_fields.1 "United Kingdom" (by decide),
   c5_direct_fields.2.1 "gb" "fr" (by decide),
   c5_direct_fields.2.2.1 "gb" "fr" (by decide),
   c5_direct_fields.2.2.2.1 "gb" "fr" (by decide),
   c5_direct_fields.2.2.2.2.1 "gb" (by decide)⟩

/-- C6: country inference step 3.  When steps 1 and 2 yield nothing and the
record carries a nested extra mapping, the keys country, countryCode,
establishedCountry are checked inside it in that order, and the first one
holding a non-empty string wins; in particular country beats countryCode
when both are present, and countryCode beats establishedCountry.  The
record with extra countryCode gb yields GB. -/
theorem c6_extra_mapping :
    (∀ v : String, pyStrip v ≠ "" →
      extract_country_from_seller [("extra", Value.dict [("country", Value.str v)])] =
        some (pyUpper (pyStrip v))) ∧
    (∀ v w : String, pyStrip v ≠ "" →
      extract_country_from_seller
          [("extra", Value.dict [("countryCode", Value.str w), ("country", Value.str v)])] =
        some (pyUpper (pyStrip v))) ∧
    (∀ v w : String, pyStrip v ≠ "" →
      extract_country_from_seller
          [("extra", Value.dict [("establishedCountry", Value.str w), ("countryCode", Value.str v)])] =
        some (pyUpper (pyStrip v))) ∧
    extract_country_from_seller [("extra", Value.dict [("countryCode", Value.str "gb")])] =
      some "GB" := by
  refine ⟨?_, ?_, ?_, by decide⟩
  · intro v h
    have e1 : extractStep1 [("extra", Value.dict [("country", Value.str v)])] = none := rfl
    have e2 : extractStep2 [("extra", Value.dict [("country", Value.str v)])] = none := rfl
    have dx : dictGet [("extra", Value.dict [("country", Value.str v)])] "extra" =
        some (Value.dict [("country", Value.str v)]) := rfl
    have g1 : dictGet [("country", Value.str v)] "country" = some (Value.str v) := rfl
    unfold extract_country_from_seller extractStep3 extra_keys
    simp only [e1, e2, dx, List.findSome?_cons, List.findSome?_nil, directField, g1]
    rw [if_pos h]
  · intro v w h
    have e1 : extractStep1
        [("extra", Value.dict [("countryCode", Value.str w), ("country", Value.str v)])] =
        none := rfl
    have e2 : extractStep2
        [("extra", Value.dict [("countryCode", Value.str w), ("country", Value.str v)])] =
        none := rfl
    have dx : dictGet
        [("extra", Value.dict [("countryCode", Value.str w), ("country", Value.str v)])]
        "extra" = some (Value.dict [("countryCode", Value.str w), ("country", Value.str v)]) := rfl
    have g1 : dictGet [("countryCode", Value.str w), ("country", Value.str v)] "country" =
        some (Value.str v) := rfl
    unfold extract_country_from_seller extractStep3 extra_keys
    simp only [e1, e2, dx, List.findSome?_cons, List.findSome?_nil, directField, g1]
    rw [if_pos h]
  · intro v w h
    have e1 : extractStep1
        [("extra", Value.dict [("establishedCountry", Value.str w), ("countryCode", Value.str v)])] =
        none := rfl
    have e2 : extractStep2
        [("extra", Value.dict [("establishedCountry", Value.str w), ("countryCode", Value.str v)])] =
        none := rfl
    have dx : dictGet
        [("extra", Value.dict [("establishedCountry", Value.str w), ("countryCode", Value.str v)])]
        "extra" =
        some (Value.dict [("establishedCountry", Value.str w), ("countryCode", Value.str v)]) := rfl
    have g1 : dictGet [("establishedCountry", Value.str w), ("countryCode", Value.str v)]
        "country" = none := rfl
    have g2 : dictGet [("establishedCountry", Value.str w), ("countryCode", Value.str v)]
        "countryCode" = some (Value.str v) := rfl
    unfold extract_country_from_seller extractStep3 extra_keys
    simp only [e1, e2, dx, List.findSome?_cons, List.findSome?_nil, directField, g1, g2]
    rw [if_pos h]

/-- Witness for C6: each universally quantified part applied at concrete
nested mappings. -/
theorem c6_witness :
    extract_country_from_seller [("extra", Value.dict [("country", Value.str "gb")])] =
      some (pyUpper (pyStrip "gb")) ∧
    extract_country_from_seller
        [("extra", Value.dict [("countryCode", Value.str "fr"), ("country", Value.str "gb")])] =
      some (pyUpper (pyStrip "gb")) ∧
    extract_country_from_seller
        [("extra", Value.dict [("establishedCountry", Value.str "fr"), ("countryCode", Value.str "gb")])] =
      some (pyUpper (pyStrip "gb")) :=
  ⟨c6_extra_mapping.1 "gb" (by decide),
   c6_extra_mapping.2.1 "gb" "fr" (by decide),
   c6_extra_mapping.2.2.1 "gb" "fr" (by decide)⟩

/-- The chunk computation does not depend on the fuel once the fuel covers
the list length. -/
theorem chunks100Fuel_congr (f1 : Nat) : ∀ (f2 : Nat) (ids : List String),
    ids.length ≤ f1 → ids.length ≤ f2 → chunks100Fuel f1 ids = chunks100Fuel f2 ids := by
  induction f1 with
  | zero =>
    intro f2 ids h1 _
    have hids : ids = [] := List.eq_nil_of_length_eq_zero (Nat.le_zero.mp h1)
    subst hids
    cases f2 <;> rfl
  | succ f ih =>
    intro f2 ids h1 h2
    cases ids with
    | nil => cases f2 <;> rfl
    | cons x xs =>
      cases f2 with
      | zero => simp at h2
      | succ f2p =>
        simp only [chunks100Fuel]
        congr 1
        simp only [List.length_cons] at h1 h2
        apply ih
        · simp only [List.length_drop, List.length_cons, BATCH]
          omega
        · simp only [List.length_drop, List.length_cons, BATCH]
          omega

/-- Unfolding of the chunk list on a non-empty identifier list. -/
theorem chunks100_cons (x : String) (xs : List String) :
    chunks100 (x :: xs) = (x :: xs).take BATCH :: chunks100 ((x :: xs).drop BATCH) := by
  show chunks100Fuel (xs.length + 1) (x :: xs) = _
  simp only [chunks100Fuel]
  congr 1
  apply chunks100Fuel_congr
  · simp only [List.length_drop, List.length_cons, BATCH]
    omega
  · exact Nat.le_refl _

/-- The chunks concatenate back to the identifier list. -/
theorem chunks100_flatten (ids : List String) : (chunks100 ids).flatten = ids := by
  have key : ∀ (f : Nat) (l : List String), l.length ≤ f → (chunks100Fuel f l).flatten = l := by
    intro f
    induction f with
    | zero =>
      intro l h
      have : l = [] := List.eq_nil_of_length_eq_zero (Nat.le_zero.mp h)
      subst this
      rfl
    | succ f ih =>
      intro l h
      cases l with
      | nil => rfl
      | cons x xs =>
        simp only [chunks100Fuel, List.flatten_cons]
        simp only [List.length_cons] at h
        rw [ih]
        · exact List.take_append_drop _ _
        · simp only [List.length_drop, List.length_cons, BATCH]
          omega
  exact key _ _ (Nat.le_refl _)

/-- Every chunk holds at most 100 identifiers. -/
theorem chunks100_length_le (ids : List String) :
    ∀ c, c ∈ chunks100 ids → c.length ≤ 100 := by
  have key : ∀ (f : Nat) (l : List String), ∀ c ∈ chunks100Fuel f l, c.length ≤ 100 := by
    intro f
    induction f with
    | zero => intro l c hc; simp [chunks100Fuel] at hc
    | succ f ih =>
      intro l c hc
      cases l with
      | nil => simp [chunks100Fuel] at hc
      | cons x xs =>
        simp only [chunks100Fuel, List.mem_cons] at hc
        rcases hc with hc | hc
        · subst hc
          have := List.length_take_le BATCH (x :: xs)
          simp only [BATCH] at this
          exact this
        · exact ih _ c hc
  exact key _ _

/-- The loop computes, batch by batch, the concatenation of the per-chunk
rows and the per-chunk events. -/
theorem mainLoop_eq_chunks (api : List String → Except String (List (String × Value)))
    (f : Nat) : ∀ (k : Nat) (ids : List String), ids.length ≤ f →
    mainLoop api f (BATCH * k) ids =
      (((chunks100 ids).map (chunkRows api)).flatten, eventsOfChunks api k (chunks100 ids)) := by
  induction f with
  | zero =>
    intro k ids h
    have : ids = [] := List.eq_nil_of_length_eq_zero (Nat.le_zero.mp h)
    subst this
    rfl
  | succ f ih =>
    intro k ids h
    cases ids with
    | nil => rfl
    | cons x xs =>
      have hlen : ((x :: xs).drop BATCH).length ≤ f := by
        simp only [List.length_drop, List.length_cons, BATCH]
        simp only [List.length_cons] at h
        omega
      have hmul : BATCH * k + BATCH = BATCH * (k + 1) := by
        simp [Nat.mul_succ]
      have hrec := ih (k + 1) ((x :: xs).drop BATCH) hlen
      have hdiv : BATCH * k / BATCH + 1 = k + 1 := by
        rw [Nat.mul_div_cancel_left k (by simp [BATCH] : 0 < BATCH)]
      rw [chunks100_cons]
      simp only [mainLoop, hmul, hrec, List.map_cons, List.flatten_cons, eventsOfChunks]
      cases hapi : api ((x :: xs).take BATCH) with
      | ok data =>
        simp only [chunkRows, hapi, List.nil_append]
      | error e =>
        simp only [chunkRows, hapi, warnMsg, hdiv, List.nil_append,
          List.cons_append, List.append_nil]

/-- A whole run is the concatenation of the per-chunk rows paired with the
per-chunk events. -/
theorem main_run_eq (api : List String → Except String (List (String × Value)))
    (ids : List String) :
    main_run api ids =
      (((chunks100 ids).map (chunkRows api)).flatten, eventsOfChunks api 0 (chunks100 ids)) := by
  have h := mainLoop_eq_chunks api ids.length 0 ids (Nat.le_refl _)
  simpa [main_run, Nat.mul_zero] using h

/-- Data recovered from a produced row: its identifier is the queried one,
its country passed the GB/UK filter, and its seller name is the stripped
str() of the truthy-or-empty sellerName field of the record. -/
theorem rowFor_eq_some {sid : String} {v : Option Value} {row : OutputRow}
    (h : rowFor sid v = some row) :
    row.sellerId = sid ∧
    (row.establishedCountry = "GB" ∨ row.establishedCountry = "UK") ∧
    ∃ fields, v = some (Value.dict fields) ∧
      row.sellerName = pyStrip (pyToStr (pyOr (dictGet fields "sellerName"))) := by
  cases v with
  | none => simp [rowFor] at h
  | some w =>
    cases w with
    | dict fields =>
      simp only [rowFor] at h
      cases hc : extract_country_from_seller fields with
      | none => rw [hc] at h; exact Option.noConfusion h
      | some country =>
        simp only [hc] at h
        by_cases hgb : country = "GB" ∨ country = "UK"
        · rw [if_pos hgb] at h
          have hrow := Option.some.inj h
          subst hrow
          exact ⟨rfl, hgb, fields, rfl, rfl⟩
        · rw [if_neg hgb] at h
          exact Option.noConfusion h
    | str s => simp [rowFor] at h
    | int n => simp [rowFor] at h
    | list l => simp [rowFor] at h
    | pynone => simp [rowFor] at h

/-- Every row of a run comes from a successful per-identifier row build. -/
theorem mem_main_rows {api : List String → Except String (List (String × Value))}
    {ids : List String} {row : OutputRow} (h : row ∈ main_rows api ids) :
    ∃ sid v, rowFor sid v = some row := by
  rw [main_rows, main_run_eq] at h
  simp only at h
  obtain ⟨l, hl, hrow⟩ := List.mem_flatten.mp h
  obtain ⟨c, _, rfl⟩ := List.mem_map.mp hl
  unfold chunkRows at hrow
  cases hapi : api c with
  | error e => rw [hapi] at hrow; simp at hrow
  | ok data =>
    rw [hapi] at hrow
    obtain ⟨sid, _, hr⟩ := List.mem_filterMap.mp hrow
    exact ⟨sid, dictGet data sid, hr⟩

/-- C1: every row appended to the output collection (and hence every row
written to the CSV) has establishedCountry exactly GB or exactly UK; no
record with any other or undetermined inferred country produces a row. -/
theorem c1_rows_gb_or_uk (api : List String → Except String (List (String × Value)))
    (ids : List String) (row : OutputRow) (h : row ∈ main_rows api ids) :
    row.establishedCountry = "GB" ∨ row.establishedCountry = "UK" := by
  obtain ⟨sid, v, hr⟩ := mem_main_rows h
  exact (rowFor_eq_some hr).2.1

/-- Witness for C1: the invariant applied to the row of a concrete run. -/
theorem c1_witness :
    ({ sellerId := "S1", sellerName := "",
       establishedCountry := "GB",
       amazonUrl := "https://www.amazon.de/sp?seller=S1",
       keepaUrl := "https://keepa.com/#!seller/DE/S1" } : OutputRow).establishedCountry = "GB" ∨
    ({ sellerId := "S1", sellerName := "",
       establishedCountry := "GB",
       amazonUrl := "https://www.amazon.de/sp?seller=S1",
       keepaUrl := "https://keepa.com/#!seller/DE/S1" } : OutputRow).establishedCountry = "UK" :=
  c1_rows_gb_or_uk
    (fun _ => Except.ok [("S1", Value.dict [("country", Value.str "GB")])])
    ["S1"] _ (by decide)

/-- Counterexample for C7 as stated: a record whose sellerName field holds
the non-string, truthy value 7 produces a row whose sellerName is the
str() rendering 7, not the empty string. -/
theorem c7_counterexample :
    (main_rows
        (fun _ => Except.ok
          [("S1", Value.dict [("country", Value.str "GB"), ("sellerName", Value.int 7)])])
        ["S1"]).map (fun r => r.sellerName) = ["7"] ∧
    ("7" : String) ≠ "" :=
  ⟨by decide, by decide⟩

/-- Every row of a run comes from an identifier of some processed chunk
whose lookup succeeded, via the row build applied to the record the result
mapping holds for that identifier. -/
theorem mem_main_rows_origin {api : List String → Except String (List (String × Value))}
    {ids : List String} {row : OutputRow} (h : row ∈ main_rows api ids) :
    ∃ b data sid, b ∈ chunks100 ids ∧ api b = Except.ok data ∧ sid ∈ b ∧
      rowFor sid (dictGet data sid) = some row := by
  rw [main_rows, main_run_eq] at h
  simp only at h
  obtain ⟨l, hl, hrow⟩ := List.mem_flatten.mp h
  obtain ⟨c, hc, rfl⟩ := List.mem_map.mp hl
  unfold chunkRows at hrow
  cases hapi : api c with
  | error e => rw [hapi] at hrow; simp at hrow
  | ok data =>
    rw [hapi] at hrow
    obtain ⟨sid, hsid, hr⟩ := List.mem_filterMap.mp hrow
    exact ⟨c, data, sid, hc, hapi, hsid, hr⟩

/-- C7 amended: every emitted row originates from a record of a successful
chunk lookup (the dict the result mapping holds for the row identifier),
and its sellerName is the stripped str() of (x or empty) where x is that
record sellerName value: the stripped string when the field holds a
string; the empty string when the field is absent or holds any falsy
value; and the stripped str() rendering when the field holds a truthy
non-string value. -/
theorem c7_sellerName_amended (api : List String → Except String (List (String × Value)))
    (ids : List String) (row : OutputRow) (h : row ∈ main_rows api ids) :
    ∃ b data fields,
      b ∈ chunks100 ids ∧
      api b = Except.ok data ∧
      row.sellerId ∈ b ∧
      dictGet data row.sellerId = some (Value.dict fields) ∧
      row.sellerName = pyStrip (pyToStr (pyOr (dictGet fields "sellerName"))) ∧
      (∀ s, dictGet fields "sellerName" = some (Value.str s) → row.sellerName = pyStrip s) ∧
      (dictGet fields "sellerName" = none → row.sellerName = "") ∧
      (∀ v, dictGet fields "sellerName" = some v → pyTruthy v = false →
        row.sellerName = "") := by
  obtain ⟨b, data, sid, hb, hapi, hsid, hr⟩ := mem_main_rows_origin h
  obtain ⟨hid, -, fields, hv, hname⟩ := rowFor_eq_some hr
  refine ⟨b, data, fields, hb, hapi, ?_, ?_, hname, ?_, ?_, ?_⟩
  · rw [hid]; exact hsid
  · rw [hid]; exact hv
  · intro s hs
    rw [hname, hs]
    by_cases h0 : s = ""
    · subst h0
      rfl
    · have ht : pyTruthy (Value.str s) = true := by
        simp [pyTruthy, h0]
      simp [pyOr, ht, pyToStr]
  · intro hxn
    rw [hname, hxn]
    rfl
  · intro w hw hfalse
    rw [hname, hw]
    simp [pyOr, hfalse]
    rfl

/-- Witness for the amended C7: the description applied to the row of a
concrete run whose record carries a padded string sellerName field. -/
theorem c7_amended_witness :
    ∃ b data fields,
      b ∈ chunks100 ["S1"] ∧
      (Except.ok [("S1", Value.dict [("country", Value.str "GB"),
          ("sellerName", Value.str " Shop ")])] : Except String (List (String × Value))) =
        Except.ok data ∧
      ("S1" : String) ∈ b ∧
      dictGet data "S1" = some (Value.dict fields) ∧
      ("Shop" : String) = pyStrip (pyToStr (pyOr (dictGet fields "sellerName"))) ∧
      (∀ s, dictGet fields "sellerName" = some (Value.str s) → ("Shop" : String) = pyStrip s) ∧
      (dictGet fields "sellerName" = none → ("Shop" : String) = "") ∧
      (∀ v, dictGet fields "sellerName" = some v → pyTruthy v = false →
        ("Shop" : String) = "") :=
  c7_sellerName_amended
    (fun _ => Except.ok [("S1", Value.dict [("country", Value.str "GB"),
        ("sellerName", Value.str " Shop ")])])
    ["S1"]
    { sellerId := "S1", sellerName := "Shop", establishedCountry := "GB",
      amazonUrl := "https://www.amazon.de/sp?seller=S1",
      keepaUrl := "https://keepa.com/#!seller/DE/S1" }
    (by decide)

/-- The loader comprehension produces exactly the stripped non-blank lines
in order. -/
theorem loader_filterMap_eq (lines : List String) :
    lines.filterMap (fun line => if pyStrip line ≠ "" then some (pyStrip line) else none) =
      specTrimmedLines lines := by
  induction lines with
  | nil => rfl
  | cons a t ih =>
    by_cases h : pyStrip a = ""
    · simp [specTrimmedLines, List.filterMap_cons, h, ih]
      simp [specTrimmedLines] at ih
      exact ih
    · simp [specTrimmedLines, List.filterMap_cons, h, ih]
      simp [specTrimmedLines] at ih
      exact ih

/-- C8: the input loader maps a readable file to exactly the sequence of
its whitespace-trimmed non-blank lines, in file order with duplicates
preserved (the result is a sublist of the line-wise stripped file), and
fails with the descriptive fatal error exactly when the file does not
exist or that sequence is empty. -/
theorem c8_loader :
    load_input none =
      Except.error "Missing seller_ids.txt. Create it with one seller ID per line." ∧
    (∀ lines, specTrimmedLines lines ≠ [] →
      load_input (some lines) = Except.ok (specTrimmedLines lines)) ∧
    (∀ lines, specTrimmedLines lines = [] →
      load_input (some lines) = Except.error "seller_ids.txt has no seller IDs. Add at least one.") ∧
    (∀ lines, (specTrimmedLines lines).Sublist (lines.map pyStrip)) := by
  refine ⟨rfl, ?_, ?_, ?_⟩
  · intro lines hne
    simp only [load_input]
    rw [loader_filterMap_eq, if_neg hne]
  · intro lines hnil
    simp only [load_input]
    rw [loader_filterMap_eq, if_pos hnil]
    rfl
  · intro lines
    exact List.filter_sublist _

/-- Witness for C8: the loader applied to a concrete file with padding,
blank lines and a duplicate, and to a concrete all-blank file. -/
theorem c8_witness :
    load_input (some ["  a ", "", "b", "a", "   "]) =
      Except.ok (specTrimmedLines ["  a ", "", "b", "a", "   "]) ∧
    load_input (some ["", "   "]) =
      Except.error "seller_ids.txt has no seller IDs. Add at least one." :=
  ⟨c8_loader.2.1 ["  a ", "", "b", "a", "   "] (by decide),
   c8_loader.2.2.1 ["", "   "] (by decide)⟩

/-- The identifiers of the rows of one batch form a sublist of the batch. -/
theorem rowsForBatch_ids_sublist (data : List (String × Value)) (batch : List String) :
    ((rowsForBatch data batch).map (fun r => r.sellerId)).Sublist batch := by
  induction batch with
  | nil => simp [rowsForBatch]
  | cons sid rest ih =>
    unfold rowsForBatch at ih ⊢
    rw [List.filterMap_cons]
    cases hr : rowFor sid (dictGet data sid) with
    | none => exact ih.cons sid
    | some row =>
      rw [List.map_cons, (rowFor_eq_some hr).1]
      exact ih.cons₂ sid

/-- The identifiers of all rows of the per-chunk row lists form a sublist
of the concatenated chunks. -/
theorem chunkRows_flatten_sublist (api : List String → Except String (List (String × Value)))
    (cl : List (List String)) :
    (((cl.map (chunkRows api)).flatten).map (fun r => r.sellerId)).Sublist cl.flatten := by
  induction cl with
  | nil => simp
  | cons c cs ih =>
    simp only [List.map_cons, List.flatten_cons, List.map_append]
    apply List.Sublist.append _ ih
    unfold chunkRows
    cases hapi : api c with
    | ok data => exact rowsForBatch_ids_sublist data c
    | error e => simp

/-- C9: the sellerId values of the emitted rows appear as a subsequence of
the input identifier sequence (same relative order, no fabricated rows),
and the identifiers are processed in consecutive chunks of at most 100
which concatenate back to the input. -/
theorem c9_rows_subsequence (api : List String → Except String (List (String × Value)))
    (ids : List String) :
    ((main_rows api ids).map (fun r => r.sellerId)).Sublist ids ∧
    (chunks100 ids).flatten = ids ∧
    (∀ c, c ∈ chunks100 ids → c.length ≤ 100) := by
  refine ⟨?_, chunks100_flatten ids, chunks100_length_le ids⟩
  rw [main_rows, main_run_eq]
  have h := chunkRows_flatten_sublist api (chunks100 ids)
  rw [chunks100_flatten ids] at h
  exact h

/-- Witness for C9 on a concrete run whose chunking is non-trivial. -/
theorem c9_witness :
    ((main_rows (fun _ => Except.ok [("S1", Value.dict [("country", Value.str "GB")])])
        ["S1", "S2"]).map (fun r => r.sellerId)).Sublist ["S1", "S2"] ∧
    (chunks100 ["S1", "S2"]).flatten = ["S1", "S2"] ∧
    (["S1", "S2"] : List String).length ≤ 100 :=
  ⟨(c9_rows_subsequence (fun _ => Except.ok [("S1", Value.dict [("country", Value.str "GB")])])
      ["S1", "S2"]).1,
   (c9_rows_subsequence (fun _ => Except.ok [("S1", Value.dict [("country", Value.str "GB")])])
      ["S1", "S2"]).2.1,
   (c9_rows_subsequence (fun _ => Except.ok [("S1", Value.dict [("country", Value.str "GB")])])
      ["S1", "S2"]).2.2 ["S1", "S2"] (by decide)⟩

/-- A failing batch leaves its warning and sleep, in order, somewhere in
the event trace of the remaining chunks. -/
theorem eventsOfChunks_error_trace (api : List String → Except String (List (String × Value))) :
    ∀ (cl : List (List String)) (j k : Nat) (b : List String) (e : String),
    cl.get? j = some b → api b = Except.error e →
    ∃ pre post, eventsOfChunks api k cl =
      pre ++ Event.warn (warnMsg (k + j) e) :: Event.sleep 2 :: post := by
  intro cl
  induction cl with
  | nil => intro j k b e h _; simp at h
  | cons c cs ih =>
    intro j k b e h he
    cases j with
    | zero =>
      have hcb : c = b := by simpa using h
      subst hcb
      refine ⟨[], eventsOfChunks api (k + 1) cs, ?_⟩
      simp [eventsOfChunks, he, Nat.add_zero]
    | succ jp =>
      have hget : cs.get? jp = some b := by simpa using h
      obtain ⟨pre, post, hpp⟩ := ih jp (k + 1) b e hget he
      refine ⟨(match api c with
               | Except.ok _ => []
               | Except.error e2 => [Event.warn (warnMsg k e2), Event.sleep 2]) ++ pre, post, ?_⟩
      have hk : k + 1 + jp = k + (jp + 1) := by omega
      rw [hk] at hpp
      simp [eventsOfChunks, hpp]

/-- C2: if the lookup call for a chunk fails, that chunk contributes zero
rows, the run still processes every chunk (the rows are the concatenation
over all chunks), and the event trace contains, adjacent and in order, a
warning naming the failed batch number and the error followed by the fixed
sleep of 2 time units; accumulated rows of other chunks are unaffected. -/
theorem c2_failed_chunk (api : List String → Except String (List (String × Value)))
    (ids : List String) (j : Nat) (b : List String) (e : String)
    (hb : (chunks100 ids).get? j = some b) (he : api b = Except.error e) :
    chunkRows api b = [] ∧
    main_rows api ids = ((chunks100 ids).map (chunkRows api)).flatten ∧
    ∃ pre post, main_events api ids =
      pre ++ Event.warn (warnMsg j e) :: Event.sleep 2 :: post := by
  refine ⟨?_, ?_, ?_⟩
  · unfold chunkRows
    rw [he]
  · rw [main_rows, main_run_eq]
  · rw [main_events, main_run_eq]
    have h := eventsOfChunks_error_trace api (chunks100 ids) j 0 b e hb he
    simpa using h

/-- Witness for C2: a run whose single chunk fails.  The warning names
batch 1 and the error text, the sleep follows, and no rows are produced. -/
theorem c2_witness :
    chunkRows (fun _ => Except.error "boom") ["S1"] = [] ∧
    main_rows (fun _ => Except.error "boom") ["S1"] =
      ((chunks100 ["S1"]).map (chunkRows (fun _ => Except.error "boom"))).flatten ∧
    ∃ pre post, main_events (fun _ => Except.error "boom") ["S1"] =
      pre ++ Event.warn (warnMsg 0 "boom") :: Event.sleep 2 :: post :=
  c2_failed_chunk (fun _ => Except.error "boom") ["S1"] 0 ["S1"] "boom" (by decide) rfl
